import Mathlib

/-!
# Verification of the stepped amortization schedule engine

Shallow embedding of `calculate_stepped_amortization_schedule` from
`stepped_amortization_schedule` (the amortization engine of the
Fixed-Income-Tools repository).  Monetary amounts and rates are modelled
as exact rationals; Python `datetime` dates as Gregorian calendar triples;
the Python list `schedule` as a `List Entry`; a Python `IndexError`
(out-of-range list subscript) as `Option.none` propagated to the result.
-/

set_option autoImplicit false
set_option maxHeartbeats 1000000
set_option maxRecDepth 8000

/- Core marks the rational-number operations `@[irreducible]`, which the
kernel ignores but which stops `decide` from evaluating concrete
schedules; restore default reducibility for this development. -/
attribute [local semireducible] Rat.mul Rat.inv Rat.add Rat.sub

namespace SteppedAmortization

/-- A Gregorian calendar date, mirroring the fields of a Python `datetime`
date that the engine uses. -/
structure Date where
  year : Nat
  month : Nat
  day : Nat
  deriving Repr, DecidableEq

def isLeapYear (y : Nat) : Bool :=
  (y % 4 == 0 && y % 100 != 0) || y % 400 == 0

def daysInMonth (y m : Nat) : Nat :=
  if m = 2 then (if isLeapYear y then 29 else 28)
  else if m = 4 ∨ m = 6 ∨ m = 9 ∨ m = 11 then 30
  else 31

def nextDay (d : Date) : Date :=
  if d.day < daysInMonth d.year d.month then ⟨d.year, d.month, d.day + 1⟩
  else if d.month < 12 then ⟨d.year, d.month + 1, 1⟩
  else ⟨d.year + 1, 1, 1⟩

/-- `addDays n d` is the Python `d + timedelta(days=n)`. -/
def addDays : Nat → Date → Date
  | 0, d => d
  | n + 1, d => addDays n (nextDay d)

/-- One record of the emitted schedule: exactly the dict appended by the
source (`date`, `days`, `day`, `base rate`, `margin`, `all rate`,
`interest`, `principal`, `bill type`, `balance`). -/
structure Entry where
  date : Date
  days : Nat
  day : Date
  baseRate : ℚ
  margin : ℚ
  allRate : ℚ
  interest : ℚ
  principal : ℚ
  billType : ℚ
  balance : ℚ
  deriving Repr, DecidableEq

/-- The mutable loop variables of the source: `remaining_balance`,
`monthly_installment`, `payment_date`, `payment_number`. -/
structure LoopState where
  balance : ℚ
  installment : ℚ
  date : Date
  payNum : Nat
  deriving Repr, DecidableEq

/-- The record the source appends to `schedule`.  The `days` value is
`(payment_date - payment_date.replace(day=1)).days + 1`, i.e. the
day-of-month of the payment date; the `principal` value is the literal
`0` written by the source; `margin` is the literal `0`. -/
def mkEntry (dt : Date) (annualRate interest installment newBalance : ℚ) : Entry :=
  { date := dt, days := dt.day - 1 + 1, day := dt, baseRate := annualRate, margin := 0,
    allRate := annualRate, interest := interest, principal := 0,
    billType := installment, balance := newBalance }

/-- The rational number `n/1`, written without the `Nat.cast` coercion so
that concrete schedules evaluate by kernel reduction. -/
def natToRat (n : Nat) : ℚ := mkRat (Int.ofNat n) 1

theorem natToRat_eq_cast (n : Nat) : natToRat n = (n : ℚ) := by
  unfold natToRat
  rw [Rat.mkRat_eq_div]
  simp

/-- `monthly_interest_rates = [(annual_interest_rate / 100) * (days / 365)
for days in monthly_days]`. -/
def monthlyRates (annualRate : ℚ) (monthlyDays : List Nat) : List ℚ :=
  monthlyDays.map (fun days => annualRate / 100 * (natToRat days / 365))

/-- The inner `for month in range(1, 13)` loop, one fuel unit per month.
Both `break`s return the current state; the list subscript
`monthly_interest_rates[payment_number - 1]` is `List.get?`, with `none`
standing for a raised `IndexError`. -/
def runMonths (rates : List ℚ) (annualRate balloon : ℚ) :
    Nat → LoopState → Option (LoopState × List Entry)
  | 0, s => some (s, [])
  | m + 1, s =>
    if rates.length < s.payNum then some (s, [])
    else if s.balance ≤ balloon then some (s, [])
    else
      match rates.get? (s.payNum - 1) with
      | none => none
      | some r =>
        let interest := s.balance * r
        let pp0 := s.installment - interest
        let pp := if s.balance < pp0 then s.balance else pp0
        let e := mkEntry s.date annualRate interest s.installment (s.balance - pp)
        (runMonths rates annualRate balloon m
            ⟨s.balance - pp, s.installment, addDays 30 s.date, s.payNum + 1⟩).map
          (fun out => (out.1, e :: out.2))

/-- The outer `for year in range(1, years + 1)` loop: twelve monthly steps,
then the step-up `monthly_installment *= (1 + increase_percentage / 100)`
guarded by `year <= len(annual_installment_increases)`. -/
def runYears (rates : List ℚ) (annualRate balloon : ℚ) (incs : List ℚ) :
    Nat → Nat → LoopState → Option (LoopState × List Entry)
  | _, 0, s => some (s, [])
  | year, n + 1, s =>
    match runMonths rates annualRate balloon 12 s with
    | none => none
    | some (s1, es) =>
      let stepped : Option LoopState :=
        if year ≤ incs.length then
          match incs.get? (year - 1) with
          | none => none
          | some inc => some ⟨s1.balance, s1.installment * (1 + inc / 100), s1.date, s1.payNum⟩
        else some s1
      stepped.bind (fun s2 =>
        (runYears rates annualRate balloon incs (year + 1) n s2).map
          (fun out => (out.1, es ++ out.2)))

/-- Initial loop variables: balance `principal`, installment `bill_type`,
payment date `start_date + timedelta(days=30)`, `payment_number = 1`. -/
def initState (principal billType : ℚ) (startDate : Date) : LoopState :=
  ⟨principal, billType, addDays 30 startDate, 1⟩

/-- `calculate_stepped_amortization_schedule`.  After the year loop, the
balloon block runs when `remaining_balance > 0`, computing its interest
from `monthly_interest_rates[payment_number - 1]` and appending one entry
with balance `0`.  The returned list models the rows of the returned
DataFrame; `none` models an uncaught `IndexError`. -/
def calculate_stepped_amortization_schedule (principal annualInterestRate : ℚ)
    (years : Nat) (monthlyDays : List Nat) (startDate : Date)
    (balloonPayment billType : ℚ) (annualInstallmentIncreases : List ℚ) :
    Option (List Entry) :=
  let rates := monthlyRates annualInterestRate monthlyDays
  match runYears rates annualInterestRate balloonPayment annualInstallmentIncreases 1 years
      (initState principal billType startDate) with
  | none => none
  | some (s, entries) =>
    if 0 < s.balance then
      match rates.get? (s.payNum - 1) with
      | none => none
      | some r =>
        some (entries ++ [mkEntry s.date annualInterestRate (s.balance * r) s.installment 0])
    else some entries

/-- The spec's preconditions on a `LoanSpecification`: positive principal,
non-empty all-positive day-count list, non-negative annual rate, positive
initial installment, together with the data-model requirement that the
balloon threshold is non-negative. -/
def ValidInput (principal : ℚ) (monthlyDays : List Nat)
    (annualRate billType balloon : ℚ) : Prop :=
  0 < principal ∧ monthlyDays ≠ [] ∧ (∀ d ∈ monthlyDays, 0 < d) ∧
    0 ≤ annualRate ∧ 0 < billType ∧ 0 ≤ balloon

instance (principal : ℚ) (monthlyDays : List Nat) (annualRate billType balloon : ℚ) :
    Decidable (ValidInput principal monthlyDays annualRate billType balloon) := by
  unfold ValidInput; infer_instance

/-- Default entry used with `List.getD` when indexing schedules. -/
def defaultEntry : Entry := mkEntry ⟨0, 0, 0⟩ 0 0 0 0

/-- The clamp applied to the principal portion: `principal_payment` is
capped at `remaining_balance`. -/
def clampPP (b pp0 : ℚ) : ℚ := if b < pp0 then b else pp0

/-- `Consumes rates i b es j b'` says: starting at rate index `i` with
balance `b`, the entries `es` consume rates at consecutive indices (each
in range), each entry's recorded `interest` is the running balance times
its rate, its recorded `balance` is the running balance minus the clamped
principal portion, and the run ends at index `j` with balance `b'`. -/
def Consumes (rates : List ℚ) : Nat → ℚ → List Entry → Nat → ℚ → Prop
  | i, b, [], j, b' => j = i ∧ b' = b
  | i, b, e :: es, j, b' =>
      (∃ r, rates.get? i = some r ∧ e.interest = b * r) ∧
      e.balance = b - clampPP b (e.billType - e.interest) ∧
      Consumes rates (i + 1) e.balance es j b'

theorem Consumes_append {rates : List ℚ} {i j k : Nat} {b b' b'' : ℚ}
    {es es' : List Entry} (h1 : Consumes rates i b es j b')
    (h2 : Consumes rates j b' es' k b'') :
    Consumes rates i b (es ++ es') k b'' := by
  induction es generalizing i b with
  | nil =>
      obtain ⟨hj, hb⟩ := h1
      subst hj; subst hb; simpa using h2
  | cons e es ih =>
      obtain ⟨hr, hbal, htail⟩ := h1
      exact ⟨hr, hbal, ih htail⟩

theorem Consumes_nonneg {rates : List ℚ} {i j : Nat} {b b' : ℚ} {es : List Entry}
    (h : Consumes rates i b es j b') : ∀ e ∈ es, 0 ≤ e.balance := by
  induction es generalizing i b with
  | nil => intro e he; cases he
  | cons e es ih =>
      obtain ⟨_, hbal, htail⟩ := h
      intro e' he'
      rcases List.mem_cons.mp he' with rfl | hmem
      · rw [hbal]
        unfold clampPP
        split
        · simp
        · have : e'.billType - e'.interest ≤ b := le_of_not_lt (by assumption)
          linarith
      · exact ih htail e' hmem

theorem nextDay_day_pos (d : Date) : 1 ≤ (nextDay d).day := by
  unfold nextDay
  split
  · exact Nat.le_add_left 1 d.day
  · split <;> exact le_refl 1

theorem addDays_day_pos : ∀ (n : Nat) (d : Date), 1 ≤ d.day → 1 ≤ (addDays n d).day := by
  intro n
  induction n with
  | zero => intro d h; exact h
  | succ n ih => intro d _; exact ih (nextDay d) (nextDay_day_pos d)

theorem addDays_succ_day_pos (n : Nat) (d : Date) : 1 ≤ (addDays (n + 1) d).day :=
  addDays_day_pos n (nextDay d) (nextDay_day_pos d)

/-- Combined invariants of the inner monthly loop, by induction on the
remaining months: the installment is untouched, the payment number
advances by one per emitted entry and stays within `rates.length + 1`,
every entry records the installment in effect and, when the date is a
real calendar day, the `days` field equals the date's day-of-month; the
entries consume consecutive rate indices (`Consumes`); and an early stop
leaves one of the two loop guards true. -/
theorem runMonths_spec (rates : List ℚ) (r bl : ℚ) :
    ∀ (m : Nat) (s s' : LoopState) (es : List Entry),
      runMonths rates r bl m s = some (s', es) →
      1 ≤ s.payNum →
      s'.installment = s.installment ∧
      s'.payNum = s.payNum + es.length ∧
      es.length ≤ m ∧
      (s.payNum ≤ rates.length + 1 → s'.payNum ≤ rates.length + 1) ∧
      (∀ e ∈ es, e.billType = s.installment) ∧
      (1 ≤ s.date.day →
        (1 ≤ s'.date.day ∧ ∀ e ∈ es, e.days = e.date.day ∧ 1 ≤ e.date.day)) ∧
      Consumes rates (s.payNum - 1) s.balance es (s'.payNum - 1) s'.balance ∧
      (es.length < m → (rates.length < s'.payNum ∨ s'.balance ≤ bl)) := by
  intro m
  induction m with
  | zero =>
      intro s s' es h hp
      simp only [runMonths, Option.some.injEq, Prod.mk.injEq] at h
      obtain ⟨rfl, rfl⟩ := h
      refine ⟨rfl, ?_, ?_, fun h => h, ?_, ?_, ⟨rfl, rfl⟩, ?_⟩
      · simp
      · simp
      · simp
      · exact fun hd => ⟨hd, by simp⟩
      · intro hlt; cases Nat.not_lt_zero _ hlt
  | succ m ih =>
      intro s s' es h hp
      simp only [runMonths] at h
      split at h
      · -- payment number exhausts the rate list: first break
        simp only [Option.some.injEq, Prod.mk.injEq] at h
        obtain ⟨rfl, rfl⟩ := h
        refine ⟨rfl, ?_, ?_, fun h => h, ?_, ?_, ⟨rfl, rfl⟩, ?_⟩
        · simp
        · simp
        · simp
        · exact fun hd => ⟨hd, by simp⟩
        · exact fun _ => Or.inl (by assumption)
      split at h
      · -- balance at or below the balloon threshold: second break
        simp only [Option.some.injEq, Prod.mk.injEq] at h
        obtain ⟨rfl, rfl⟩ := h
        refine ⟨rfl, ?_, ?_, fun h => h, ?_, ?_, ⟨rfl, rfl⟩, ?_⟩
        · simp
        · simp
        · simp
        · exact fun hd => ⟨hd, by simp⟩
        · exact fun _ => Or.inr (by assumption)
      · -- a regular period is processed
        rename_i hlen hbal
        have hple : s.payNum ≤ rates.length := le_of_not_lt hlen
        have hidx : s.payNum - 1 < rates.length := by omega
        rw [List.get?_eq_get hidx] at h
        simp only [Option.map_eq_some'] at h
        obtain ⟨⟨s₂, es₂⟩, hrec, hout⟩ := h
        simp only [Prod.mk.injEq] at hout
        obtain ⟨rfl, rfl⟩ := hout
        obtain ⟨hinst, hpay, hlen2, hbound, hbill, hdate, hcons, hstop⟩ :=
          ih _ _ _ hrec (by simp)
        simp only at hinst hpay hlen2 hbound hbill hdate hcons hstop
        refine ⟨hinst, ?_, ?_, ?_, ?_, ?_, ?_, ?_⟩
        · simp only [List.length_cons]
          omega
        · simp only [List.length_cons]
          omega
        · intro _
          exact hbound (by omega)
        · intro e he
          rcases List.mem_cons.mp he with rfl | hmem
          · rfl
          · exact hbill e hmem
        · intro hd
          have hd30 : 1 ≤ (addDays 30 s.date).day := addDays_day_pos 30 s.date hd
          obtain ⟨hd', hes⟩ := hdate hd30
          refine ⟨hd', ?_⟩
          intro e he
          rcases List.mem_cons.mp he with rfl | hmem
          · exact ⟨by show s.date.day - 1 + 1 = s.date.day; omega, hd⟩
          · exact hes e hmem
        · refine ⟨⟨rates.get ⟨s.payNum - 1, hidx⟩, List.get?_eq_get hidx, rfl⟩, ?_, ?_⟩
          · show _ = s.balance - clampPP s.balance _
            simp only [mkEntry, clampPP]
          · have hshift : s.payNum - 1 + 1 = s.payNum + 1 - 1 := by omega
            rw [hshift]
            exact hcons
        · intro hlt
          refine hstop ?_
          simp only [List.length_cons] at hlt
          omega

/-- Combined invariants of the outer yearly loop: the payment number
advances by one per emitted entry, at most twelve entries arise per year,
the payment number stays within `rates.length + 1`, day-of-month facts
are preserved, and the concatenated entries consume consecutive rate
indices starting from the initial payment number. -/
theorem runYears_spec (rates : List ℚ) (r bl : ℚ) (incs : List ℚ) :
    ∀ (n year : Nat) (s s' : LoopState) (es : List Entry),
      runYears rates r bl incs year n s = some (s', es) →
      1 ≤ s.payNum →
      1 ≤ s'.payNum ∧
      s'.payNum = s.payNum + es.length ∧
      es.length ≤ n * 12 ∧
      (s.payNum ≤ rates.length + 1 → s'.payNum ≤ rates.length + 1) ∧
      (1 ≤ s.date.day →
        (1 ≤ s'.date.day ∧ ∀ e ∈ es, e.days = e.date.day ∧ 1 ≤ e.date.day)) ∧
      Consumes rates (s.payNum - 1) s.balance es (s'.payNum - 1) s'.balance := by
  intro n
  induction n with
  | zero =>
      intro year s s' es h hp
      simp only [runYears, Option.some.injEq, Prod.mk.injEq] at h
      obtain ⟨rfl, rfl⟩ := h
      refine ⟨hp, ?_, ?_, fun h => h, ?_, ⟨rfl, rfl⟩⟩
      · simp
      · simp
      · exact fun hd => ⟨hd, by simp⟩
  | succ n ih =>
      intro year s s' es h hp
      simp only [runYears] at h
      cases h12 : runMonths rates r bl 12 s with
      | none => rw [h12] at h; cases h
      | some out =>
        obtain ⟨s1, es1⟩ := out
        rw [h12] at h
        simp only [Option.bind_eq_some] at h
        obtain ⟨s2, hstep, h⟩ := h
        rw [Option.map_eq_some'] at h
        obtain ⟨⟨s3, es2⟩, hrec, hout⟩ := h
        simp only [Prod.mk.injEq] at hout
        obtain ⟨rfl, rfl⟩ := hout
        -- fields preserved by the installment step-up
        have hfields : s2.balance = s1.balance ∧ s2.payNum = s1.payNum ∧ s2.date = s1.date := by
          split at hstep
          · cases hg : incs.get? (year - 1) with
            | none => rw [hg] at hstep; cases hstep
            | some inc =>
                rw [hg] at hstep
                simp only [Option.some.injEq] at hstep
                subst hstep
                exact ⟨rfl, rfl, rfl⟩
          · simp only [Option.some.injEq] at hstep
            subst hstep
            exact ⟨rfl, rfl, rfl⟩
        obtain ⟨hb2, hp2, hd2⟩ := hfields
        obtain ⟨hinst1, hpay1, hlen1, hbound1, hbill1, hdate1, hcons1, hstop1⟩ :=
          runMonths_spec rates r bl 12 s s1 es1 h12 hp
        have hp1 : 1 ≤ s1.payNum := by omega
        obtain ⟨hp3, hpay2, hlen2, hbound2, hdate2, hcons2⟩ :=
          ih (year + 1) s2 s3 es2 hrec (by omega)
        refine ⟨hp3, ?_, ?_, ?_, ?_, ?_⟩
        · simp only [List.length_append]
          omega
        · simp only [List.length_append]
          have : (n + 1) * 12 = n * 12 + 12 := by ring
          omega
        · intro hb
          exact hbound2 (by rw [hp2]; exact hbound1 hb)
        · intro hd
          obtain ⟨hd1, hes1⟩ := hdate1 hd
          obtain ⟨hd3, hes2⟩ := hdate2 (by rw [hd2]; exact hd1)
          refine ⟨hd3, ?_⟩
          intro e he
          rcases List.mem_append.mp he with hmem | hmem
          · exact hes1 e hmem
          · exact hes2 e hmem
        · refine Consumes_append hcons1 ?_
          rw [← hp2, ← hb2]
          exact hcons2

/-- The monthly loop never fails when the payment number is at least 1:
the in-range guard protects the list subscript. -/
theorem runMonths_total (rates : List ℚ) (r bl : ℚ) :
    ∀ (m : Nat) (s : LoopState), 1 ≤ s.payNum →
      ∃ out, runMonths rates r bl m s = some out := by
  intro m
  induction m with
  | zero => exact fun s _ => ⟨(s, []), rfl⟩
  | succ m ih =>
      intro s hp
      simp only [runMonths]
      by_cases h1 : rates.length < s.payNum
      · rw [if_pos h1]; exact ⟨(s, []), rfl⟩
      · rw [if_neg h1]
        by_cases h2 : s.balance ≤ bl
        · rw [if_pos h2]; exact ⟨(s, []), rfl⟩
        · rw [if_neg h2]
          have hidx : s.payNum - 1 < rates.length := by omega
          rw [List.get?_eq_get hidx]
          simp only
          obtain ⟨out, hout⟩ :=
            ih ⟨s.balance - (if s.balance < s.installment - s.balance * rates.get ⟨s.payNum - 1, hidx⟩
                  then s.balance
                  else s.installment - s.balance * rates.get ⟨s.payNum - 1, hidx⟩),
                s.installment, addDays 30 s.date, s.payNum + 1⟩
              (Nat.succ_le_succ (Nat.zero_le _))
          rw [hout]
          exact ⟨_, rfl⟩

/-- The yearly loop never fails when the payment number and year counter
are at least 1: the guards protect both list subscripts. -/
theorem runYears_total (rates : List ℚ) (r bl : ℚ) (incs : List ℚ) :
    ∀ (n year : Nat) (s : LoopState), 1 ≤ s.payNum → 1 ≤ year →
      ∃ out, runYears rates r bl incs year n s = some out := by
  intro n
  induction n with
  | zero => exact fun year s _ _ => ⟨(s, []), rfl⟩
  | succ n ih =>
      intro year s hp hy
      simp only [runYears]
      obtain ⟨⟨s1, es1⟩, h12⟩ := runMonths_total rates r bl 12 s hp
      rw [h12]
      simp only
      have hp1 : 1 ≤ s1.payNum := by
        obtain ⟨_, hpay, _⟩ := runMonths_spec rates r bl 12 s s1 es1 h12 hp
        omega
      by_cases hyl : year ≤ incs.length
      · have hidx : year - 1 < incs.length := by omega
        rw [if_pos hyl, List.get?_eq_get hidx]
        simp only [Option.some_bind]
        obtain ⟨out, hrec⟩ :=
          ih (year + 1) ⟨s1.balance, s1.installment * (1 + incs.get ⟨year - 1, hidx⟩ / 100),
            s1.date, s1.payNum⟩ hp1 (by omega)
        rw [hrec]
        exact ⟨_, rfl⟩
      · rw [if_neg hyl]
        simp only [Option.some_bind]
        obtain ⟨out, hrec⟩ := ih (year + 1) s1 hp1 (by omega)
        rw [hrec]
        exact ⟨_, rfl⟩

/-- The installment after running the step-up block for years
`year, year+1, …, year+n-1`: each year at most `incs.length` multiplies
by `(1 + incs[year-1]/100)`. -/
def stepFold (incs : List ℚ) : Nat → Nat → ℚ → ℚ
  | _, 0, inst => inst
  | year, n + 1, inst =>
      stepFold incs (year + 1) n
        (if year ≤ incs.length then inst * (1 + incs.getD (year - 1) 0 / 100) else inst)

theorem stepFold_stable (incs : List ℚ) :
    ∀ (n year : Nat) (inst : ℚ), incs.length < year → stepFold incs year n inst = inst := by
  intro n
  induction n with
  | zero => intro year inst _; rfl
  | succ n ih =>
      intro year inst hy
      simp only [stepFold, if_neg (by omega : ¬ year ≤ incs.length)]
      exact ih (year + 1) inst (by omega)

/-- Starting at year 1, the step-ups applied over `n` years multiply the
installment by the factors of the first `n` configured increases. -/
theorem stepFold_take (incs : List ℚ) :
    ∀ (n year : Nat) (inst : ℚ), 1 ≤ year →
      stepFold incs year n inst =
        ((incs.drop (year - 1)).take n).foldl (fun a i => a * (1 + i / 100)) inst := by
  intro n
  induction n with
  | zero => intro year inst _; simp [stepFold]
  | succ n ih =>
      intro year inst hy
      obtain ⟨k, rfl⟩ : ∃ k, year = k + 1 := ⟨year - 1, by omega⟩
      by_cases hyl : k + 1 ≤ incs.length
      · have hidx : k < incs.length := by omega
        have hgetD : incs.getD k 0 = incs.get ⟨k, hidx⟩ := by
          rw [List.getD_eq_get?, List.get?_eq_get hidx]
          rfl
        have hdrop : incs.drop k = incs.get ⟨k, hidx⟩ :: incs.drop (k + 1) := by
          rw [List.get_eq_getElem]
          exact (List.getElem_cons_drop incs k hidx).symm
        simp only [stepFold, if_pos hyl, Nat.add_sub_cancel, hgetD, hdrop,
          List.take_succ_cons, List.foldl_cons]
        exact ih (k + 1 + 1) (inst * (1 + incs.get ⟨k, hidx⟩ / 100)) (by omega)
      · have hdrop : incs.drop k = [] := List.drop_eq_nil_of_le (by omega)
        simp only [stepFold, if_neg hyl, Nat.add_sub_cancel, hdrop, List.take_nil,
          List.foldl_nil]
        exact stepFold_stable incs n (k + 1 + 1) inst (by omega)

theorem stepFold_one (incs : List ℚ) (n : Nat) (inst : ℚ) :
    stepFold incs 1 n inst =
      (incs.take n).foldl (fun a i => a * (1 + i / 100)) inst := by
  rw [stepFold_take incs n 1 inst (le_refl 1)]
  rfl

/-- If a loop guard already holds (rates exhausted or balance at or below
the balloon threshold), the monthly loop emits nothing and leaves the
state unchanged. -/
theorem runMonths_stop (rates : List ℚ) (r bl : ℚ) (m : Nat) (s : LoopState)
    (h : rates.length < s.payNum ∨ s.balance ≤ bl) :
    runMonths rates r bl m s = some (s, []) := by
  cases m with
  | zero => rfl
  | succ m =>
      simp only [runMonths]
      rcases h with h | h
      · rw [if_pos h]
      · by_cases h1 : rates.length < s.payNum
        · rw [if_pos h1]
        · rw [if_neg h1, if_pos h]

/-- If a loop guard already holds, every remaining year emits nothing:
only the installment step-ups are applied. -/
theorem runYears_skip (rates : List ℚ) (r bl : ℚ) (incs : List ℚ) :
    ∀ (n year : Nat) (s : LoopState), 1 ≤ year →
      (rates.length < s.payNum ∨ s.balance ≤ bl) →
      runYears rates r bl incs year n s =
        some (⟨s.balance, stepFold incs year n s.installment, s.date, s.payNum⟩, []) := by
  intro n
  induction n with
  | zero =>
      intro year s _ _
      simp only [runYears, stepFold]
  | succ n ih =>
      intro year s hy hg
      simp only [runYears]
      rw [runMonths_stop rates r bl 12 s hg]
      simp only
      by_cases hyl : year ≤ incs.length
      · have hidx : year - 1 < incs.length := by omega
        rw [if_pos hyl, List.get?_eq_get hidx]
        simp only [Option.some_bind]
        rw [ih (year + 1) ⟨s.balance, s.installment * (1 + incs.get ⟨year - 1, hidx⟩ / 100),
              s.date, s.payNum⟩ (by omega) hg]
        simp only [Option.map_some', List.nil_append]
        simp only [stepFold, if_pos hyl]
        rw [List.getD_eq_get?, List.get?_eq_get hidx]
        rfl
      · rw [if_neg hyl]
        simp only [Option.some_bind]
        rw [ih (year + 1) s (by omega) hg]
        simp only [Option.map_some', List.nil_append]
        have : stepFold incs year (n + 1) s.installment =
            stepFold incs (year + 1) n s.installment := by
          simp only [stepFold, if_neg hyl]
        rw [this]

/-- Once the year counter passes the length of the increase list, the
installment no longer changes and every emitted entry records it. -/
theorem runYears_billType_const (rates : List ℚ) (r bl : ℚ) (incs : List ℚ) :
    ∀ (n year : Nat) (s s' : LoopState) (es : List Entry),
      runYears rates r bl incs year n s = some (s', es) →
      incs.length < year →
      1 ≤ s.payNum →
      s'.installment = s.installment ∧ ∀ e ∈ es, e.billType = s.installment := by
  intro n
  induction n with
  | zero =>
      intro year s s' es h _ _
      simp only [runYears, Option.some.injEq, Prod.mk.injEq] at h
      obtain ⟨rfl, rfl⟩ := h
      exact ⟨rfl, by simp⟩
  | succ n ih =>
      intro year s s' es h hy hp
      simp only [runYears] at h
      cases h12 : runMonths rates r bl 12 s with
      | none => rw [h12] at h; cases h
      | some out =>
        obtain ⟨s1, es1⟩ := out
        rw [h12] at h
        simp only [if_neg (by omega : ¬ year ≤ incs.length), Option.some_bind,
          Option.map_eq_some'] at h
        obtain ⟨⟨s3, es2⟩, hrec, hout⟩ := h
        simp only [Prod.mk.injEq] at hout
        obtain ⟨rfl, rfl⟩ := hout
        obtain ⟨hinst1, hpay1, _, _, hbill1, _⟩ :=
          runMonths_spec rates r bl 12 s s1 es1 h12 hp
        obtain ⟨hinst2, hbill2⟩ := ih (year + 1) s1 s3 es2 hrec (by omega) (by omega)
        refine ⟨by rw [hinst2, hinst1], ?_⟩
        intro e he
        rcases List.mem_append.mp he with hmem | hmem
        · exact hbill1 e hmem
        · rw [hbill2 e hmem, hinst1]

/-- Default output pair used with `Option.getD` when naming loop results. -/
def defaultOut : LoopState × List Entry := (⟨0, 0, ⟨0, 0, 0⟩, 0⟩, [])

/-- Unfolding of the top-level function once the year loop's result is
known: the balloon block runs exactly when the final balance is positive,
reading the rate at index `payment_number - 1`. -/
theorem calculate_eq (p r bl bill : ℚ) (years : Nat) (days : List Nat) (start : Date)
    (incs : List ℚ) (s : LoopState) (es : List Entry)
    (h : runYears (monthlyRates r days) r bl incs 1 years (initState p bill start) =
      some (s, es)) :
    calculate_stepped_amortization_schedule p r years days start bl bill incs =
      (if 0 < s.balance then
        match (monthlyRates r days).get? (s.payNum - 1) with
        | none => none
        | some rr => some (es ++ [mkEntry s.date r (s.balance * rr) s.installment 0])
      else some es) := by
  simp only [calculate_stepped_amortization_schedule]
  rw [h]

theorem runMonths_installment (rates : List ℚ) (r bl : ℚ) :
    ∀ (m : Nat) (s s' : LoopState) (es : List Entry),
      runMonths rates r bl m s = some (s', es) → s'.installment = s.installment := by
  intro m
  induction m with
  | zero =>
      intro s s' es h
      simp only [runMonths, Option.some.injEq, Prod.mk.injEq] at h
      obtain ⟨rfl, rfl⟩ := h
      rfl
  | succ m ih =>
      intro s s' es h
      simp only [runMonths] at h
      split at h
      · simp only [Option.some.injEq, Prod.mk.injEq] at h
        obtain ⟨rfl, rfl⟩ := h
        rfl
      split at h
      · simp only [Option.some.injEq, Prod.mk.injEq] at h
        obtain ⟨rfl, rfl⟩ := h
        rfl
      · cases hg : rates.get? (s.payNum - 1) with
        | none => rw [hg] at h; cases h
        | some rr =>
            rw [hg] at h
            simp only [Option.map_eq_some'] at h
            obtain ⟨⟨s₂, es₂⟩, hrec, hout⟩ := h
            simp only [Prod.mk.injEq] at hout
            obtain ⟨rfl, rfl⟩ := hout
            have := ih _ _ _ hrec
            exact this

/-- The final installment is the initial one with the step-up block
applied for every year iterated, whether or not entries were emitted. -/
theorem runYears_installment (rates : List ℚ) (r bl : ℚ) (incs : List ℚ) :
    ∀ (n year : Nat) (s s' : LoopState) (es : List Entry),
      runYears rates r bl incs year n s = some (s', es) → 1 ≤ year →
      s'.installment = stepFold incs year n s.installment := by
  intro n
  induction n with
  | zero =>
      intro year s s' es h _
      simp only [runYears, Option.some.injEq, Prod.mk.injEq] at h
      obtain ⟨rfl, rfl⟩ := h
      rfl
  | succ n ih =>
      intro year s s' es h hy
      simp only [runYears] at h
      cases h12 : runMonths rates r bl 12 s with
      | none => rw [h12] at h; cases h
      | some out =>
        obtain ⟨s1, es1⟩ := out
        rw [h12] at h
        simp only [Option.bind_eq_some] at h
        obtain ⟨s2, hstep, h⟩ := h
        rw [Option.map_eq_some'] at h
        obtain ⟨⟨s3, es2⟩, hrec, hout⟩ := h
        simp only [Prod.mk.injEq] at hout
        obtain ⟨rfl, rfl⟩ := hout
        have hs1 : s1.installment = s.installment := runMonths_installment rates r bl 12 s s1 es1 h12
        have hrec' := ih (year + 1) s2 s3 es2 hrec (by omega)
        by_cases hyl : year ≤ incs.length
        · have hidx : year - 1 < incs.length := by omega
          rw [if_pos hyl, List.get?_eq_get hidx] at hstep
          simp only [Option.some.injEq] at hstep
          subst hstep
          simp only [stepFold, if_pos hyl]
          rw [hrec']
          congr 1
          simp only [hs1]
          congr 2
          rw [List.getD_eq_get?, List.get?_eq_get hidx]
          rfl
        · rw [if_neg hyl] at hstep
          simp only [Option.some.injEq] at hstep
          subst hstep
          simp only [stepFold, if_neg hyl]
          rw [hrec', hs1]

/-- Consecutive entries linked by `Consumes`: each later entry's balance
is no larger than its predecessor's unless its interest exceeded the
installment in effect (negative amortization). -/
theorem Consumes_pairs {rates : List ℚ} {i j : Nat} {b b' : ℚ} {es : List Entry}
    (h : Consumes rates i b es j b') :
    ∀ k, k + 1 < es.length →
      ((es.getD (k + 1) defaultEntry).balance ≤ (es.getD k defaultEntry).balance ∨
        (es.getD (k + 1) defaultEntry).billType < (es.getD (k + 1) defaultEntry).interest) := by
  induction es generalizing i b with
  | nil => intro k hk; simp at hk
  | cons e es ih =>
      obtain ⟨hr1, hbal1, htail⟩ := h
      intro k hk
      cases k with
      | zero =>
          cases es with
          | nil => simp at hk
          | cons e2 es' =>
              obtain ⟨_, hbal2, _⟩ := htail
              simp only [List.getD_cons_succ, List.getD_cons_zero]
              by_cases hneg : e2.billType < e2.interest
              · exact Or.inr hneg
              · left
                have he : 0 ≤ e.balance := by
                  rw [hbal1]
                  unfold clampPP
                  split
                  · simp
                  · rename_i hnl
                    have := le_of_not_lt hnl
                    linarith
                rw [hbal2]
                unfold clampPP
                split
                · linarith
                · have hpp : 0 ≤ e2.billType - e2.interest := by
                    have := le_of_not_lt hneg
                    linarith
                  linarith
      | succ k =>
          simp only [List.getD_cons_succ]
          exact ih htail k (by simp only [List.length_cons] at hk; omega)

/-- C1: the spec claims that the `principalRepaid` values recorded in the
emitted entries sum to the input principal; the code writes the literal
`0` into every entry's `principal` field (its own chart labels that field
"Principal Payment"), so on the valid input `principal = 1000`, rate 0,
one 30-day period, threshold 0, installment 1000 — which the engine
processes to completion in one fully-repaying entry — the recorded sum is
0, not 1000. -/
theorem C1_principal_field_zero :
    ValidInput 1000 [30] 0 1000 0 ∧
    (calculate_stepped_amortization_schedule 1000 0 1 [30] ⟨2026, 6, 15⟩ 0 1000 []).isSome = true ∧
    ((calculate_stepped_amortization_schedule 1000 0 1 [30] ⟨2026, 6, 15⟩ 0 1000 []).getD []).length = 1 ∧
    ((calculate_stepped_amortization_schedule 1000 0 1 [30] ⟨2026, 6, 15⟩ 0 1000 []).getD []).foldl
      (fun a e => a + e.principal) 0 = 0 ∧
    (0 : ℚ) ≠ 1000 := by
  decide

/-- C2 is false as stated: on the valid input below the day-count list
(one entry) is shorter than `termYears × 12`, the regular loop consumes
it entirely (final payment number 2 exceeds the list length) leaving
balance 900 above the threshold 0, and the engine then fails with an
index error (`none`) instead of emitting a balloon entry that reuses the
last day count. -/
theorem C2_counterexample :
    ValidInput 1000 [30] 0 100 0 ∧
    ([30] : List Nat).length < 1 * 12 ∧
    ((runYears (monthlyRates 0 [30]) 0 0 [] 1 1 (initState 1000 100 ⟨2026, 1, 1⟩)).getD
        defaultOut).1.balance = 900 ∧
    ([30] : List Nat).length <
      ((runYears (monthlyRates 0 [30]) 0 0 [] 1 1 (initState 1000 100 ⟨2026, 1, 1⟩)).getD
        defaultOut).1.payNum ∧
    calculate_stepped_amortization_schedule 1000 0 1 [30] ⟨2026, 1, 1⟩ 0 100 [] = none := by
  decide

/-- C2 (amended): when the regular loop terminates with the day-count
list exhausted (`payment_number` beyond its length) and a positive
balance, the balloon block's subscript `payment_number - 1` is out of
range, so the engine raises an index error and emits no balloon entry;
the reuse of the final day count described by the spec does not happen. -/
theorem C2_amended (p r bl bill : ℚ) (years : Nat) (days : List Nat) (start : Date)
    (incs : List ℚ) (s : LoopState) (es : List Entry)
    (h : runYears (monthlyRates r days) r bl incs 1 years (initState p bill start) =
      some (s, es))
    (hex : days.length < s.payNum) (hb : 0 < s.balance) :
    calculate_stepped_amortization_schedule p r years days start bl bill incs = none := by
  rw [calculate_eq p r bl bill years days start incs s es h]
  have hnone : (monthlyRates r days).get? (s.payNum - 1) = none := by
    rw [List.get?_eq_none]
    simp only [monthlyRates, List.length_map]
    omega
  rw [if_pos hb, hnone]

theorem C2_witness :
    calculate_stepped_amortization_schedule 1000 0 1 [30] ⟨2026, 2, 1⟩ 0 100 [] = none :=
  C2_amended 1000 0 0 100 1 [30] ⟨2026, 2, 1⟩ []
    ((runYears (monthlyRates 0 [30]) 0 0 [] 1 1 (initState 1000 100 ⟨2026, 2, 1⟩)).getD
      defaultOut).1
    ((runYears (monthlyRates 0 [30]) 0 0 [] 1 1 (initState 1000 100 ⟨2026, 2, 1⟩)).getD
      defaultOut).2
    (by decide) (by decide) (by decide)

/-- C3 is false as stated: the input below satisfies every precondition
(positive principal, non-empty positive day counts, non-negative rate,
positive installment), yet the engine does not run to completion — it
fails with an index error in the balloon block. -/
theorem C3_counterexample :
    ValidInput 1000 [30] 0 50 0 ∧
    calculate_stepped_amortization_schedule 1000 0 1 [30] ⟨2026, 1, 1⟩ 0 50 [] = none := by
  decide

/-- C3 (amended): on valid input the engine either returns a schedule, or
the regular loop exhausted the day-count list with a positive balance and
the balloon block's out-of-range subscript raises an index error; no
other failure exists. -/
theorem C3_amended (p r bl bill : ℚ) (years : Nat) (days : List Nat) (start : Date)
    (incs : List ℚ) (hv : ValidInput p days r bill bl) :
    (∃ l, calculate_stepped_amortization_schedule p r years days start bl bill incs = some l) ∨
    (∃ s es, runYears (monthlyRates r days) r bl incs 1 years (initState p bill start) =
        some (s, es) ∧
      days.length < s.payNum ∧ 0 < s.balance ∧
      calculate_stepped_amortization_schedule p r years days start bl bill incs = none) := by
  obtain ⟨⟨s, es⟩, hry⟩ :=
    runYears_total (monthlyRates r days) r bl incs years 1 (initState p bill start)
      (le_refl 1) (le_refl 1)
  have hc := calculate_eq p r bl bill years days start incs s es hry
  by_cases hb : 0 < s.balance
  · cases hg : (monthlyRates r days).get? (s.payNum - 1) with
    | none =>
        right
        have hp1 : 1 ≤ s.payNum := by
          obtain ⟨h1, _⟩ :=
            runYears_spec (monthlyRates r days) r bl incs years 1 (initState p bill start)
              s es hry (le_refl 1)
          exact h1
        have hlen : (monthlyRates r days).length ≤ s.payNum - 1 := List.get?_eq_none.mp hg
        simp only [monthlyRates, List.length_map] at hlen
        refine ⟨s, es, hry, by omega, hb, ?_⟩
        rw [hc, if_pos hb, hg]
    | some rr =>
        left
        exact ⟨es ++ [mkEntry s.date r (s.balance * rr) s.installment 0], by
          rw [hc, if_pos hb, hg]⟩
  · left
    exact ⟨es, by rw [hc, if_neg hb]⟩

theorem C3_witness :
    (∃ l, calculate_stepped_amortization_schedule 2000 0 1 [30] ⟨2026, 1, 1⟩ 0 2000 [] =
      some l) ∨
    (∃ s es, runYears (monthlyRates 0 [30]) 0 0 [] 1 1 (initState 2000 2000 ⟨2026, 1, 1⟩) =
        some (s, es) ∧
      ([30] : List Nat).length < s.payNum ∧ 0 < s.balance ∧
      calculate_stepped_amortization_schedule 2000 0 1 [30] ⟨2026, 1, 1⟩ 0 2000 [] = none) :=
  C3_amended 2000 0 0 2000 1 [30] ⟨2026, 1, 1⟩ [] (by decide)

/-- C4 is false: the engine performs no input validation at all — on the
invalid input `principal = -1` (violating `principal > 0`) it does not
raise any error identifying the offending field, but returns a successful
empty schedule. -/
theorem C4_counterexample :
    ¬ (0 : ℚ) < -1 ∧
    calculate_stepped_amortization_schedule (-1) 10 1 [30] ⟨2026, 1, 1⟩ 0 100 [] = some [] := by
  decide

/-- C4 (amended): there is no `InvalidParameter` check; invalid inputs
flow through the algorithm: a non-positive principal yields a successful
empty schedule, an empty day-count list with positive balance hits an
index error in the balloon block, and a negative rate or non-positive
installment produces a schedule as if valid. -/
theorem C4_amended :
    calculate_stepped_amortization_schedule (-1) 10 1 [30] ⟨2026, 5, 1⟩ 0 100 [] = some [] ∧
    calculate_stepped_amortization_schedule 1000 10 1 [] ⟨2026, 1, 1⟩ 0 100 [] = none ∧
    (calculate_stepped_amortization_schedule 1000 (-10) 1
      [30, 30, 30, 30, 30, 30, 30, 30, 30, 30, 30, 30, 30] ⟨2026, 1, 1⟩ 0 100 []).isSome = true ∧
    (calculate_stepped_amortization_schedule 1000 0 1
      [30, 30, 30, 30, 30, 30, 30, 30, 30, 30, 30, 30, 30] ⟨2026, 1, 1⟩ 0 (-100) []).isSome =
      true := by
  decide

/-- C5 is false as stated: on the valid input below the first (and only)
regular entry consumes the day count 30, yet its recorded `days` field is
15 — the day-of-month of the payment date — not the consumed day count. -/
theorem C5_counterexample :
    ValidInput 1000 [30] 0 1000 0 ∧
    ([30] : List Nat).getD 0 0 = 30 ∧
    (((calculate_stepped_amortization_schedule 1000 0 1 [30] ⟨2026, 6, 15⟩ 0 1000 []).getD
        []).getD 0 defaultEntry).days = 15 ∧
    (15 : Nat) ≠ 30 := by
  decide

/-- C5 (amended): the `days` field of every emitted entry (regular and
balloon) equals the day-of-month of that entry's payment date; the
consumed day count `periodDayCounts[i]` enters only the interest
computation through the period rate. -/
theorem C5_amended (p r bl bill : ℚ) (years : Nat) (days : List Nat) (start : Date)
    (incs : List ℚ) (l : List Entry)
    (h : calculate_stepped_amortization_schedule p r years days start bl bill incs = some l) :
    ∀ e ∈ l, e.days = e.date.day := by
  cases hry : runYears (monthlyRates r days) r bl incs 1 years (initState p bill start) with
  | none =>
      simp only [calculate_stepped_amortization_schedule, hry] at h
      exact Option.noConfusion h
  | some out =>
      obtain ⟨s, es⟩ := out
      rw [calculate_eq p r bl bill years days start incs s es hry] at h
      obtain ⟨_, _, _, _, hdate, _⟩ :=
        runYears_spec (monthlyRates r days) r bl incs years 1 (initState p bill start)
          s es hry (le_refl 1)
      have hd0 : 1 ≤ (initState p bill start).date.day := addDays_succ_day_pos 29 start
      obtain ⟨hds, hes⟩ := hdate hd0
      by_cases hb : 0 < s.balance
      · rw [if_pos hb] at h
        cases hg : (monthlyRates r days).get? (s.payNum - 1) with
        | none => rw [hg] at h; cases h
        | some rr =>
            rw [hg] at h
            simp only [Option.some.injEq] at h
            subst h
            intro e he
            rcases List.mem_append.mp he with hmem | hmem
            · exact (hes e hmem).1
            · rcases List.mem_singleton.mp hmem with rfl
              show s.date.day - 1 + 1 = s.date.day
              omega
      · rw [if_neg hb] at h
        simp only [Option.some.injEq] at h
        subst h
        intro e he
        exact (hes e he).1

theorem C5_witness :
    (((calculate_stepped_amortization_schedule 900 0 1 [30] ⟨2026, 6, 15⟩ 0 900 []).getD
        []).getD 0 defaultEntry).days =
    (((calculate_stepped_amortization_schedule 900 0 1 [30] ⟨2026, 6, 15⟩ 0 900 []).getD
        []).getD 0 defaultEntry).date.day :=
  C5_amended 900 0 0 900 1 [30] ⟨2026, 6, 15⟩ []
    ((calculate_stepped_amortization_schedule 900 0 1 [30] ⟨2026, 6, 15⟩ 0 900 []).getD [])
    (by decide) _ (by decide)

/-- C6: the balloon fires on the valid input below (threshold 2000 above
the principal 1000, so the whole principal is the balance outstanding
immediately before the balloon), and the balloon entry's `endingBalance`
is 0 as the claim says; but its recorded `principal` field is the literal
0 written by the code, not the outstanding balance 1000 the claim
requires. -/
theorem C6_balloon_principal_zero :
    ValidInput 1000 [30, 30] 0 100 2000 ∧
    calculate_stepped_amortization_schedule 1000 0 1 [30, 30] ⟨2026, 3, 1⟩ 2000 100 [] =
      some [mkEntry ⟨2026, 3, 31⟩ 0 0 100 0] ∧
    (mkEntry ⟨2026, 3, 31⟩ 0 0 100 0).principal = 0 ∧
    (mkEntry ⟨2026, 3, 31⟩ 0 0 100 0).balance = 0 ∧
    (0 : ℚ) ≠ 1000 := by
  decide

/-- C7 is false as stated: on the valid input below (annual rate 100%,
365-day periods, installment 1) the interest exceeds the installment, the
principal portion is negative, and the recorded `endingBalance` values
increase from one regular entry to the next (1999 then 3997). -/
theorem C7_counterexample :
    ValidInput 1000 (List.replicate 13 365) 100 1 0 ∧
    (((calculate_stepped_amortization_schedule 1000 100 1 (List.replicate 13 365)
        ⟨2026, 1, 1⟩ 0 1 []).getD []).getD 0 defaultEntry).balance <
    (((calculate_stepped_amortization_schedule 1000 100 1 (List.replicate 13 365)
        ⟨2026, 1, 1⟩ 0 1 []).getD []).getD 1 defaultEntry).balance := by
  decide

/-- C7 (amended): every emitted entry's `endingBalance` is non-negative,
and across consecutive entries the `endingBalance` is non-increasing
except when the later entry's interest exceeds the installment in effect
(negative amortization, which valid inputs permit). -/
theorem C7_amended (p r bl bill : ℚ) (years : Nat) (days : List Nat) (start : Date)
    (incs : List ℚ) (l : List Entry)
    (h : calculate_stepped_amortization_schedule p r years days start bl bill incs = some l) :
    (∀ e ∈ l, 0 ≤ e.balance) ∧
    (∀ k, k + 1 < l.length →
      ((l.getD (k + 1) defaultEntry).balance ≤ (l.getD k defaultEntry).balance ∨
        (l.getD (k + 1) defaultEntry).billType < (l.getD (k + 1) defaultEntry).interest)) := by
  cases hry : runYears (monthlyRates r days) r bl incs 1 years (initState p bill start) with
  | none =>
      simp only [calculate_stepped_amortization_schedule, hry] at h
      exact Option.noConfusion h
  | some out =>
      obtain ⟨s, es⟩ := out
      rw [calculate_eq p r bl bill years days start incs s es hry] at h
      obtain ⟨_, _, _, _, _, hcons⟩ :=
        runYears_spec (monthlyRates r days) r bl incs years 1 (initState p bill start)
          s es hry (le_refl 1)
      have hnn : ∀ e ∈ es, 0 ≤ e.balance := Consumes_nonneg hcons
      have hpairs := Consumes_pairs hcons
      by_cases hb : 0 < s.balance
      · rw [if_pos hb] at h
        cases hg : (monthlyRates r days).get? (s.payNum - 1) with
        | none => rw [hg] at h; cases h
        | some rr =>
            rw [hg] at h
            simp only [Option.some.injEq] at h
            subst h
            constructor
            · intro e he
              rcases List.mem_append.mp he with hmem | hmem
              · exact hnn e hmem
              · rcases List.mem_singleton.mp hmem with rfl
                exact le_refl 0
            · intro k hk
              simp only [List.length_append, List.length_singleton] at hk
              by_cases hlt : k + 1 < es.length
              · rw [List.getD_append _ _ _ _ hlt,
                    List.getD_append _ _ _ _ (by omega : k < es.length)]
                exact hpairs k hlt
              · -- the later entry is the balloon: its balance is 0
                have hk1 : k + 1 = es.length := by omega
                left
                rw [List.getD_append_right _ _ _ _ (by omega : es.length ≤ k + 1),
                    List.getD_append _ _ _ _ (by omega : k < es.length), hk1]
                simp only [Nat.sub_self, List.getD_cons_zero]
                show (0 : ℚ) ≤ _
                refine hnn _ ?_
                have hkes : k < es.length := by omega
                rw [List.getD_eq_get _ _ hkes]
                exact List.get_mem es k hkes
      · rw [if_neg hb] at h
        simp only [Option.some.injEq] at h
        subst h
        exact ⟨hnn, hpairs⟩

theorem C7_witness :
    0 ≤ (((calculate_stepped_amortization_schedule 1000 0 1 [30, 30, 30] ⟨2026, 4, 1⟩ 0 400
        []).getD []).getD 0 defaultEntry).balance :=
  (C7_amended 1000 0 0 400 1 [30, 30, 30] ⟨2026, 4, 1⟩ []
      ((calculate_stepped_amortization_schedule 1000 0 1 [30, 30, 30] ⟨2026, 4, 1⟩ 0 400
        []).getD [])
      (by decide)).1 _ (by decide)

/-- C8: the regular entries never number more than
`min(termYears × 12, length periodDayCounts)`, and they consume the rate
list in order from index 0 — each entry's recorded interest is the
running balance times the rate at the next consecutive index, every index
read is in range, and no index is skipped or reused (`Consumes`). -/
theorem C8_regular_consumption (p r bl bill : ℚ) (years : Nat) (days : List Nat)
    (start : Date) (incs : List ℚ) (s : LoopState) (es : List Entry)
    (h : runYears (monthlyRates r days) r bl incs 1 years (initState p bill start) =
      some (s, es)) :
    es.length ≤ min (years * 12) days.length ∧
    Consumes (monthlyRates r days) 0 p es (s.payNum - 1) s.balance := by
  obtain ⟨hp1, hpay, hlen, hbound, _, hcons⟩ :=
    runYears_spec (monthlyRates r days) r bl incs years 1 (initState p bill start)
      s es h (le_refl 1)
  simp only [initState] at hpay hbound hcons
  constructor
  · refine Nat.le_min.mpr ⟨hlen, ?_⟩
    have hb := hbound (by simp [monthlyRates])
    simp only [monthlyRates, List.length_map] at hb
    omega
  · simpa using hcons

theorem C8_witness :
    (((runYears (monthlyRates 0 [30, 30]) 0 0 [] 1 1 (initState 1000 600 ⟨2026, 5, 1⟩)).getD
        defaultOut).2).length ≤ min (1 * 12) ([30, 30] : List Nat).length ∧
    Consumes (monthlyRates 0 [30, 30]) 0 1000
      ((runYears (monthlyRates 0 [30, 30]) 0 0 [] 1 1 (initState 1000 600 ⟨2026, 5, 1⟩)).getD
        defaultOut).2
      (((runYears (monthlyRates 0 [30, 30]) 0 0 [] 1 1 (initState 1000 600 ⟨2026, 5, 1⟩)).getD
        defaultOut).1.payNum - 1)
      ((runYears (monthlyRates 0 [30, 30]) 0 0 [] 1 1 (initState 1000 600 ⟨2026, 5, 1⟩)).getD
        defaultOut).1.balance :=
  C8_regular_consumption 1000 0 0 600 1 [30, 30] ⟨2026, 5, 1⟩ []
    ((runYears (monthlyRates 0 [30, 30]) 0 0 [] 1 1 (initState 1000 600 ⟨2026, 5, 1⟩)).getD
      defaultOut).1
    ((runYears (monthlyRates 0 [30, 30]) 0 0 [] 1 1 (initState 1000 600 ⟨2026, 5, 1⟩)).getD
      defaultOut).2
    (by decide)

/-- C9: first, the installment step-up is applied exactly once per annual
cycle boundary for every iterated year up to the length of the increase
list — whether or not that cycle emitted entries — so the final
installment is the initial one folded through the first `years` increase
factors; second, in the concrete scenario `initialInstallment = 1000`,
`annualInstallmentIncreases = [5]`, the year-1 boundary steps the
installment to `1000 × (1 + 5/100) = 1050`, and from year 2 onward every
emitted entry records installment 1050 and the installment never changes
again. -/
theorem C9_stepup (p r bl bill : ℚ) (years : Nat) (days : List Nat) (start : Date)
    (incs : List ℚ) :
    (∀ s es, runYears (monthlyRates r days) r bl incs 1 years (initState p bill start) =
        some (s, es) →
      s.installment = (incs.take years).foldl (fun a i => a * (1 + i / 100)) bill) ∧
    (∀ (n : Nat) (s1 s2 : LoopState) (es : List Entry),
      s1.installment = 1000 * (1 + 5 / 100) →
      1 ≤ s1.payNum →
      runYears (monthlyRates r days) r bl [5] 2 n s1 = some (s2, es) →
      s2.installment = 1050 ∧ ∀ e ∈ es, e.billType = 1050) := by
  constructor
  · intro s es h
    have := runYears_installment (monthlyRates r days) r bl incs years 1
      (initState p bill start) s es h (le_refl 1)
    rw [this]
    have hinit : (initState p bill start).installment = bill := rfl
    rw [hinit, stepFold_one]
  · intro n s1 s2 es hinst hp hrec
    obtain ⟨h2, h3⟩ :=
      runYears_billType_const (monthlyRates r days) r bl [5] n 2 s1 s2 es hrec
        (by norm_num) hp
    have h1050 : s1.installment = 1050 := by rw [hinst]; norm_num
    refine ⟨by rw [h2, h1050], ?_⟩
    intro e he
    rw [h3 e he, h1050]

theorem C9_witness :
    (((runYears (monthlyRates 0 [30, 30]) 0 400 [5] 2 1
        ⟨500, 1000 * (1 + 5 / 100), ⟨2026, 7, 1⟩, 1⟩).getD defaultOut).2.getD 0
      defaultEntry).billType = 1050 :=
  ((C9_stepup 500 0 400 1000 1 [30, 30] ⟨2026, 7, 1⟩ [5]).2 1
      ⟨500, 1000 * (1 + 5 / 100), ⟨2026, 7, 1⟩, 1⟩
      ((runYears (monthlyRates 0 [30, 30]) 0 400 [5] 2 1
        ⟨500, 1000 * (1 + 5 / 100), ⟨2026, 7, 1⟩, 1⟩).getD defaultOut).1
      ((runYears (monthlyRates 0 [30, 30]) 0 400 [5] 2 1
        ⟨500, 1000 * (1 + 5 / 100), ⟨2026, 7, 1⟩, 1⟩).getD defaultOut).2
      rfl (le_refl 1) (by decide)).2 _ (by decide)

/-- `runYears_skip` restated with the loop-state fields spelled out. -/
theorem runYears_skip_fields (rates : List ℚ) (r bl : ℚ) (incs : List ℚ) (n year : Nat)
    (b inst : ℚ) (dt : Date) (pn : Nat) (hy : 1 ≤ year)
    (hg : rates.length < pn ∨ b ≤ bl) :
    runYears rates r bl incs year n ⟨b, inst, dt, pn⟩ =
      some (⟨b, stepFold incs year n inst, dt, pn⟩, []) :=
  runYears_skip rates r bl incs n year ⟨b, inst, dt, pn⟩ hy hg

/-- C10 (implicit): when the initial balance is at or below the balloon
threshold, no regular entry is emitted, yet the yearly loop still applies
every applicable step-up (one per year of the full term, capped at the
length of the increase list); the single balloon entry therefore records
as `installmentInEffect` the initial installment folded through the first
`termYears` increase factors — not the initial installment itself. -/
theorem C10_skip_installment (p r bl bill : ℚ) (years : Nat) (d : Nat) (ds : List Nat)
    (start : Date) (incs : List ℚ) (h1 : 0 < p) (h2 : p ≤ bl) :
    calculate_stepped_amortization_schedule p r years (d :: ds) start bl bill incs =
      some [mkEntry (addDays 30 start) r (p * (r / 100 * (natToRat d / 365)))
        ((incs.take years).foldl (fun a i => a * (1 + i / 100)) bill) 0] := by
  simp only [calculate_stepped_amortization_schedule]
  rw [show initState p bill start = ⟨p, bill, addDays 30 start, 1⟩ from rfl]
  generalize addDays 30 start = dt0
  rw [runYears_skip_fields (monthlyRates r (d :: ds)) r bl incs years 1 p bill dt0 1
      (le_refl 1) (Or.inr h2)]
  simp only []
  rw [if_pos (show (0 : ℚ) <
      (⟨p, stepFold incs 1 years bill, dt0, 1⟩ : LoopState).balance from h1)]
  rw [show (monthlyRates r (d :: ds)).get?
      ((⟨p, stepFold incs 1 years bill, dt0, 1⟩ : LoopState).payNum - 1) =
      some (r / 100 * (natToRat d / 365)) from rfl]
  rw [stepFold_one]
  rfl

theorem C10_witness :
    calculate_stepped_amortization_schedule 500 10 2 [30] ⟨2026, 1, 1⟩ 1000 100 [5] =
      some [mkEntry (addDays 30 ⟨2026, 1, 1⟩) 10 (500 * (10 / 100 * (natToRat 30 / 365)))
        ((([5] : List ℚ).take 2).foldl (fun a i => a * (1 + i / 100)) 100) 0] :=
  C10_skip_installment 500 10 1000 100 2 30 [] ⟨2026, 1, 1⟩ [5] (by norm_num) (by norm_num)

end SteppedAmortization
